import Mathlib

/-!
Verification development for the hydraulic rating-curve engine in
`src/hydraulic/profile.py` (repository `dell4valt/gidraulic`).

The Python source is shallowly embedded: float arithmetic is modelled by
exact arithmetic (`ℚ` for the geometric pipeline, `ℝ` where the source
takes square roots, powers or logarithms), Python lists by `List ℚ`, and
fallible paths (`sys.exit` calls, `IndexError`, NaN-producing degenerate
interpolation) by `Except`.
-/

namespace Gidraulic

instance exceptDecEq {ε α : Type} [DecidableEq ε] [DecidableEq α] :
    DecidableEq (Except ε α) := fun a b =>
  match a, b with
  | .error x, .error y =>
    if h : x = y then .isTrue (by rw [h])
    else .isFalse fun hc => h (by injection hc)
  | .ok x, .ok y =>
    if h : x = y then .isTrue (by rw [h])
    else .isFalse fun hc => h (by injection hc)
  | .error _, .ok _ => .isFalse fun hc => Except.noConfusion hc
  | .ok _, .error _ => .isFalse fun hc => Except.noConfusion hc

/-! ### Basic list helpers

`min(y)` / `max(...)` over a Python list (defined on nonempty lists in
Python; the `[]` case here is an arbitrary default, every use is guarded
by nonemptiness at the call sites of the original). -/

def minList : List ℚ → ℚ
  | [] => 0
  | a :: t => t.foldl min a

def maxList : List ℚ → ℚ
  | [] => 0
  | a :: t => t.foldl max a

/-- Python `list.index(a)`: index of the first occurrence of `a`.
Total here; behaviour beyond the first occurrence (absent element) is
never exercised because the original only calls `y.index(min(y))`. -/
def firstIdxOf (a : ℚ) : List ℚ → ℕ
  | [] => 0
  | b :: t => if b = a then 0 else firstIdxOf a t + 1

/-- Python slice `l[i:j]` (for `0 ≤ i ≤ j`). -/
def slice (l : List ℚ) (i j : ℕ) : List ℚ := (l.drop i).take (j - i)

/-- Python `list.insert(1, a)`: insert after the head. -/
def insertAt1 (l : List ℚ) (a : ℚ) : List ℚ :=
  match l with
  | [] => [a]
  | x :: t => x :: a :: t

/-- Python `list.insert(len(l) - 1, a)`: insert before the last element. -/
def insertPenult (l : List ℚ) (a : ℚ) : List ℚ :=
  l.take (l.length - 1) ++ [a] ++ l.drop (l.length - 1)

/-- Modelled from the spec: `hydraulic.lib.poly_area` is imported by
`profile.py` but its source is not under `src/`.  §4.2 of the spec fixes
it as "the shoelace polygon-area formula over the closed wetted polygon":
`½ |Σ (xᵢ·yᵢ₊₁ − xᵢ₊₁·yᵢ)|` cyclically.  `shoelaceSum` folds the signed
cross terms over consecutive vertex pairs. -/
def shoelaceAux (a : ℚ × ℚ) : List (ℚ × ℚ) → ℚ
  | [] => 0
  | b :: t => (a.1 * b.2 - b.1 * a.2) + shoelaceAux b t

def shoelaceSum : List (ℚ × ℚ) → ℚ
  | [] => 0
  | a :: t => shoelaceAux a t

/-- Modelled from the spec: shoelace polygon area (see `shoelaceSum`). -/
def polyArea (xs ys : List ℚ) : ℚ :=
  match xs.zip ys with
  | [] => 0
  | p :: t => |shoelaceSum ((p :: t) ++ [p])| / 2

/-- The sum of squared successive horizontal differences
`Σ (x[i+1] − x[i])²` accumulated by `_calculate_parameters` (source
variable `sum_sqr`, lines 376–377). -/
def sumSqAux (a : ℚ) : List ℚ → ℚ
  | [] => 0
  | b :: t => (b - a) ^ 2 + sumSqAux b t

def sumSqList : List ℚ → ℚ
  | [] => 0
  | a :: t => sumSqAux a t

/-- The quantity the spec *claims* the wetted perimeter to be: the plain
sum of successive horizontal differences `Σ (x[i+1] − x[i])` ("cumulative
horizontal span").  Stated from the spec's words only, for comparison
with the source's `w_perimeter`. -/
def claimSpanAux (a : ℚ) : List ℚ → ℚ
  | [] => 0
  | b :: t => (b - a) + claimSpanAux b t

def claimHorizontalSpan : List ℚ → ℚ
  | [] => 0
  | a :: t => claimSpanAux a t

/-! ### Wetted-boundary locator (`WaterSection.boundary`, lines 228–307) -/

/-- `scipy.interpolate.interp1d([y1, y2], [x1, x2])(level)`: linear
interpolation of `x` as a function of `y`.  When `y1 = y2` the original
divides by zero and produces a float `NaN` that silently poisons every
derived metric; the embedding surfaces that degenerate case as `none`. -/
def interpX (x1 x2 y1 y2 level : ℚ) : Option ℚ :=
  if y1 = y2 then none
  else some (x1 + (x2 - x1) * (level - y1) / (y2 - y1))

/-- Leftward search (source lines 246–274), for a start index ≥ 1.
`leftScan i` plays Python's loop iteration at index `i` (descending).
At each `i ≥ 1` the crossing test `y[i-1] ≥ level ∧ y[i] ≤ level` is
tried, then the reach-left-edge clamp `i − 1 = 0 ∧ y[0] ≤ level`.
Reaching `i = 0` without a hit finds nothing (the Python body at `i = 0`
can only fire its wrap-around index `y[-1]` branch when `y[0] ≤ level`,
which is impossible there because the clamp at `i = 1` would have fired
first; see `left_scan` call sites). -/
def leftScan (xs ys : List ℚ) (level : ℚ) : ℕ → Option (Option ℚ × ℕ)
  | 0 => none
  | i + 1 =>
    if ys.getD i 0 ≥ level ∧ ys.getD (i + 1) 0 ≤ level then
      some (interpX (xs.getD i 0) (xs.getD (i + 1) 0)
              (ys.getD i 0) (ys.getD (i + 1) 0) level, i)
    else if i = 0 ∧ ys.getD 0 0 ≤ level then
      some (some (xs.getD 0 0), 0)
    else
      leftScan xs ys level i

/-- Left boundary contribution: the (≤ 1 element) lists appended to
`water_boundary_x` / `water_boundary_points` by the leftward loop.  The
`start = 0` case is the source's special branch at line 249. -/
def leftB (xs ys : List ℚ) (level : ℚ) (start : ℕ) :
    List (Option ℚ) × List ℕ :=
  if start = 0 then
    if ys.getD 0 0 ≤ level then ([some (xs.getD 0 0)], [0]) else ([], [])
  else
    match leftScan xs ys level start with
    | some (ox, p) => ([ox], [p])
    | none => ([], [])

/-- Rightward search (source lines 276–296): Python
`for i in range(start, len(y) - 1)`, crossing test
`y[i] ≤ level ∧ y[i+1] ≥ level`, then the reach-right-edge clamp.
`fuel` counts the remaining loop iterations (`n - 1 - i`). -/
def rightScan (xs ys : List ℚ) (level : ℚ) (n : ℕ) :
    ℕ → ℕ → Option (Option ℚ × ℕ)
  | 0, _ => none
  | fuel + 1, i =>
    if ys.getD i 0 ≤ level ∧ ys.getD (i + 1) 0 ≥ level then
      some (interpX (xs.getD i 0) (xs.getD (i + 1) 0)
              (ys.getD i 0) (ys.getD (i + 1) 0) level, i)
    else if i + 1 = n - 1 ∧ ys.getD (n - 1) 0 ≤ level then
      some (some (xs.getD (n - 1) 0), n - 1)
    else
      rightScan xs ys level n fuel (i + 1)

/-- Right boundary contribution, including the post-loop clamp at source
lines 298–302 (`start_point[0] == len(y) - 1`), which can only add a
point when the rightward loop was empty. -/
def rightB (xs ys : List ℚ) (level : ℚ) (start n : ℕ) :
    List (Option ℚ) × List ℕ :=
  let scanned :=
    match rightScan xs ys level n (n - 1 - start) start with
    | some (ox, p) => ([ox], [p])
    | none => (([] : List (Option ℚ)), ([] : List ℕ))
  if start = n - 1 ∧ ys.getD start 0 ≤ level then
    (scanned.1 ++ [some (xs.getD (n - 1) 0)], scanned.2 ++ [n - 1])
  else scanned

/-- One boundary group, the 4-tuple
`[water_boundary_x, water_boundary_y, water_boundary_points, 0]`
appended at source line 304.  `water_boundary_y` entries always equal
the water level, so only the x-list and point-index list are carried;
`flag` is the literal `0` fourth component (tested `> 1` at line 345). -/
structure BGroup where
  bx : List (Option ℚ)
  bp : List ℕ
  flag : ℚ
deriving DecidableEq

inductive WSErr where
  /-- `water_level < min(y)`: `sys.exit(1)` at line 244. -/
  | belowMin : WSErr
  /-- fewer than two boundary points: `IndexError` in
  `_calculate_parameters`, caught and turned into `sys.exit(2)`. -/
  | noBoundary : WSErr
  /-- degenerate interpolation (float NaN in the original). -/
  | nanInterp : WSErr
  /-- the `len(boundary) > 1` branch of `__post_init__`; unreachable
  because `boundary` appends exactly one group (see the C10 theorem). -/
  | deadBranch : WSErr
deriving DecidableEq

/-- `WaterSection.boundary` (lines 228–307).  The default start point is
`[y.index(min(y)), min(y)]`; the result list always receives exactly one
group. -/
def boundary (xs ys : List ℚ) (level : ℚ) (startPt : Option (ℕ × ℚ)) :
    Except WSErr (List BGroup) :=
  let start := match startPt with
    | some p => p.1
    | none => firstIdxOf (minList ys) ys
  if level < minList ys then .error .belowMin
  else
    let lb := leftB xs ys level start
    let rb := rightB xs ys level start ys.length
    .ok [⟨lb.1 ++ rb.1, lb.2 ++ rb.2, 0⟩]

/-! ### Cross-section metrics (`WaterSection._calculate_parameters`,
lines 309–387, and `WaterSection.__post_init__`, lines 200–226) -/

/-- The fields computed by `_calculate_parameters` on a `WaterSection`.
`wetPerimeter` mirrors the dataclass field `wet_perimeter` (default
`0.0`); the routine stores the computed perimeter under the *separate*
attribute `w_perimeter = sqrt(sum_sqr)` instead, so only `wPerimSq`
(= `sum_sqr`) is carried here and the square root is taken in
`wPerimeterR` below. -/
structure WSGeom where
  wsx : List ℚ
  wsy : List ℚ
  width : ℚ
  area : ℚ
  averageDepth : ℚ
  maxDepth : ℚ
  wetPerimeter : ℚ
  wPerimSq : ℚ
deriving DecidableEq

/-- `_calculate_parameters` on one boundary group.  `overflow` is the
global `config.OVERFLOW` flag selecting which vertex the left
polygon-closing test reads (lines 335–342).  The right-end insertion at
lines 345–347 is guarded by `water_boundary[3] > 1`, and `boundary`
always stores the literal `0` there, so it never fires; it is embedded
verbatim nonetheless. -/
def calcParams (xs ys : List ℚ) (level : ℚ) (overflow : Bool)
    (g : BGroup) : Except WSErr WSGeom :=
  match g.bx, g.bp with
  | ox1 :: ox2 :: _, p1 :: p2 :: _ =>
    match ox1, ox2 with
    | some x1, some x2 =>
      let wsx0 := x1 :: slice xs (p1 + 1) (p2 + 1) ++ [x2]
      let wsy0 := level :: slice ys (p1 + 1) (p2 + 1) ++ [level]
      let ins : Bool :=
        if overflow then decide (level > ys.getD p1 0)
        else decide (level > ys.getD 0 0)
      let wsx1 := if ins then insertAt1 wsx0 (xs.getD 0 0) else wsx0
      let wsy1 := if ins then insertAt1 wsy0 (ys.getD 0 0) else wsy0
      let insR : Bool := decide (g.flag > 1 ∧ level > ys.getLastD 0)
      let wsx := if insR then insertPenult wsx1 (xs.getLastD 0) else wsx1
      let wsy := if insR then insertPenult wsy1 (ys.getLastD 0) else wsy1
      let width := x2 - x1
      let area := polyArea wsx wsy
      let depths := wsy.map (fun yy => level - yy)
      let avg0 := if 0 < area ∧ 0 < width then area / width else 0
      let avg := if avg0 = 0 then 1 / 100000 else avg0
      .ok ⟨wsx, wsy, width, area, avg, maxList depths, 0, sumSqList wsx⟩
    | _, _ => .error .nanInterp
  | _, _ => .error .noBoundary

/-- `WaterSection.__post_init__`: run `boundary`, then compute the
metrics.  The `len(boundary) > 1` summing branch (lines 203–219) is
unreachable — `boundary` returns a singleton list for every input (a
fact proved below for claim C10) — so it maps to the distinguished
`deadBranch` outcome. -/
def waterSectionGeom (xs ys : List ℚ) (level : ℚ)
    (startPt : Option (ℕ × ℚ)) (overflow : Bool) : Except WSErr WSGeom :=
  match boundary xs ys level startPt with
  | .error e => .error e
  | .ok [g] => calcParams xs ys level overflow g
  | .ok _ => .error .deadBranch

/-- `w_perimeter = np.sqrt(sum_sqr)` (line 378). -/
noncomputable def wPerimeterR (g : WSGeom) : ℝ :=
  Real.sqrt ((g.wPerimSq : ℚ) : ℝ)

/-- `r_hydraulic` (lines 380–387): `area / w_perimeter` when both are
positive, else the `0.00001` floor.  `w_perimeter > 0 ↔ sum_sqr > 0`. -/
noncomputable def rHydraulicR (g : WSGeom) : ℝ :=
  if 0 < g.area ∧ 0 < g.wPerimSq then (g.area : ℝ) / wPerimeterR g
  else 1 / 100000

/-- `Except` success test (Python: the constructor returned normally). -/
def isOk {ε α : Type} : Except ε α → Bool
  | .ok _ => true
  | .error _ => false

/-! ### Flow coefficient and velocity/discharge
(`Calculation`, lines 390–492) -/

/-- Pavlovsky exponent (lines 471–476), for `0 ≤ h ≤ 3`. -/
noncomputable def pavlovskijY (n h : ℝ) : ℝ :=
  2.5 * Real.sqrt n - 0.13 - 0.75 * Real.sqrt h * (Real.sqrt n - 0.10)

/-- Zheleznyakov exponent (lines 440–458), used for `h > 3`;
`np.log10` is `Real.logb 10`, `g = 9.80665`. -/
noncomputable def zheleznjakovY (n h grav : ℝ) : ℝ :=
  1 / Real.logb 10 h *
    Real.logb 10
      ((1 / 2 - n * Real.sqrt grav / 0.26 * (1 - Real.logb 10 h)) +
        n * Real.sqrt
          (1 / 4 * (1 / n - Real.sqrt grav / 0.13 * (1 - Real.logb 10 h)) ^ 2 +
            Real.sqrt grav / 0.13 * (1 / n + Real.sqrt grav * Real.logb 10 h)))

/-- Chezy coefficient selection in `Calculation.__post_init__`
(lines 416–419): Pavlovsky for `0 ≤ h ≤ 3`, Pavlovsky–Zheleznyakov
otherwise.  Python `h ** y` on floats is real `rpow`. -/
noncomputable def sheziCoef (n h : ℝ) : ℝ :=
  if 0 ≤ h ∧ h ≤ 3 then 1 / n * h ^ pavlovskijY n h
  else 1 / n * h ^ zheleznjakovY n h 9.80665

structure CalcOut where
  shezi : ℝ
  v : ℝ
  q : ℝ

/-- `Calculation.__post_init__` (lines 412–437): regime selection by
`config.CALC_TYPE` (1 = water, 2 = sediment-laden, 3 = mud-rock; any
other value is `sys.exit(1)`), then `q = a * v`. -/
noncomputable def calculation (n i h a : ℝ) (calcType : ℤ) :
    Except Unit CalcOut :=
  let C := sheziCoef n h
  if calcType = 1 then
    let v := C * Real.sqrt (h * (i / 1000))
    .ok ⟨C, v, a * v⟩
  else if calcType = 2 then
    let v := 4.5 * h ^ (0.67 : ℝ) * (i / 1000) ^ (0.17 : ℝ)
    .ok ⟨C, v, a * v⟩
  else if calcType = 3 then
    let v := 3.75 * h ^ (0.50 : ℝ) * (i / 1000) ^ (0.17 : ℝ)
    .ok ⟨C, v, a * v⟩
  else .error ()

/-! ### Rating-table aggregate row (`Morfostvor.calculate`,
lines 976–987, 1117–1121 and 1126–1146)

Each computed water level contributes one row per processed sector plus
one `"Сумма"` placeholder row whose numeric columns are all the literal
`0` (lines 1118–1121; likewise the initial synthetic level, lines
979–987).  After the loop, the placeholder of every level is overwritten
by `groupby(level=0).transform` expressions taken over *all* rows of
that level — the zero placeholder included — with the Shezi denominator
`count − 1` (lines 1131–1145). -/

structure RRow where
  F : ℝ
  B : ℝ
  Hsr : ℝ
  Hmax : ℝ
  V : ℝ
  Q : ℝ
  Sh : ℝ

/-- The all-zero `"Сумма"` placeholder appended at each level. -/
def zeroRow : RRow := ⟨0, 0, 0, 0, 0, 0, 0⟩

/-- The pandas fill of one level's aggregate row, computed over the
level's full row group `rows` (sector rows followed by the zero
placeholder): sums for `F`, `B`, `Q`; `ΣF/ΣB` for `Hср`; max for
`Hмакс`; `ΣQ/ΣF` for `V`; `ΣShezi / (count − 1)` for `Shezi`. -/
noncomputable def fillAgg (rows : List RRow) : RRow :=
  ⟨(rows.map RRow.F).sum,
   (rows.map RRow.B).sum,
   (rows.map RRow.F).sum / (rows.map RRow.B).sum,
   (rows.map RRow.Hmax).foldr max 0,
   (rows.map RRow.Q).sum / (rows.map RRow.F).sum,
   (rows.map RRow.Q).sum,
   (rows.map RRow.Sh).sum / ((rows.length : ℝ) - 1)⟩

/-- Aggregate row of a level whose sector rows are `sectors`: the group
handed to the `transform`s is `sectors ++ [placeholder]`. -/
noncomputable def aggRow (sectors : List RRow) : RRow :=
  fillAgg (sectors ++ [zeroRow])

/-! ### Overflow-mode active-sector loop (`Morfostvor.calculate`,
lines 948–1124, overflow branch lines 997–1070)

The rows written at one water level are exactly the sectors processed by
`for i in calc_sectors`, one row each, appended unconditionally (lines
1051–1070).  `calc_sectors` is mutated *while being iterated*: when the
ridge test fires for sector `i`, the neighbour index is appended to the
very list the `for` statement walks, and CPython's list iterator then
visits it within the same pass (same water level).  `overflowPass`
models the pass as a worklist: position `j` walks the growing list.

The ridge elevations come from `chunk_list(y, 2)` of `hydraulic.lib`,
which is not under `src/`.  Modelled from the spec: "the maximum
elevation of either half of the sector's own profile" — the list is
split into two contiguous halves (the first half taking the extra
element when the length is odd). -/

def chunkFirst (l : List ℚ) : List ℚ := l.take ((l.length + 1) / 2)

def chunkSecond (l : List ℚ) : List ℚ := l.drop ((l.length + 1) / 2)

/-- Ridge pair of one sector: `previous_min_ele` (max of the left half)
and `next_min_ele` (max of the right half), lines 1003–1006. -/
def ridgePair (ys : List ℚ) : ℚ × ℚ :=
  (maxList (chunkFirst ys), maxList (chunkSecond ys))

/-- One overflow pass at a given `level` over the active-sector list:
CPython's `for i in calc_sectors` walks the list by an internal
position, so the evolving list is represented as `done ++ pend` with the
position at the head of `pend`.  For the sector index `i` being
processed, the two ridge tests (lines 1008–1020) append the left
neighbour `i − 1` (if `level ≥ previous_min_ele`, not yet listed, and
`i − 1 ≥ 0`) and then the right neighbour `i + 1` (if
`level ≥ next_min_ele`, not yet listed — checked after the left append,
and `i + 1 ≤ nS − 1`) to the end of the list, i.e. of `pend`, where the
same pass later visits them.  The returned list is both the iteration's
row order and the next iteration's `calc_sectors`.  `fuel` bounds the
walk; any value at least `(initial length) + nS` exhausts the list. -/
def overflowPass (ridges : List (ℚ × ℚ)) (nS : ℕ) (level : ℚ) :
    ℕ → List ℕ → List ℕ → List ℕ
  | 0, done, pend => done ++ pend
  | _ + 1, done, [] => done
  | fuel + 1, done, i :: pend =>
    let r := ridges.getD i (0, 0)
    let all := done ++ i :: pend
    let add1 : List ℕ :=
      if r.1 ≤ level ∧ ¬ (i - 1) ∈ all ∧ 1 ≤ i then [i - 1] else []
    let add2 : List ℕ :=
      if r.2 ≤ level ∧ ¬ (i + 1) ∈ all ++ add1 ∧ i + 1 ≤ nS - 1 then
        [i + 1]
      else []
    overflowPass ridges nS level fuel (done ++ [i]) (pend ++ add1 ++ add2)

/-- `calc_sectors` at the start of iteration `t` (0-based): initially
the single sector containing the global minimum (line 966), thereafter
the previous pass's final list. -/
def activeBefore (ridges : List (ℚ × ℚ)) (nS minIdx : ℕ)
    (minY dh : ℚ) : ℕ → List ℕ
  | 0 => [minIdx]
  | t + 1 =>
    let a := activeBefore ridges nS minIdx minY dh t
    overflowPass ridges nS (minY + dh * (t + 1 : ℕ))
      (a.length + nS + 1) [] a

/-- The sector rows written at iteration `t`, whose water level is
`min(y) + dH·(t+1)` (lines 969 and 1123): the active list as walked
(and grown) by that iteration's pass. -/
def rowsAtLevel (ridges : List (ℚ × ℚ)) (nS minIdx : ℕ)
    (minY dh : ℚ) (t : ℕ) : List ℕ :=
  let a := activeBefore ridges nS minIdx minY dh t
  overflowPass ridges nS (minY + dh * (t + 1 : ℕ))
    (a.length + nS + 1) [] a

/-! ### Level step (`Morfostvor.calculate`, lines 953–961) -/

/-- The configured `dH` as read from the input: a number or a string. -/
inductive DHValue where
  | num : ℚ → DHValue
  | txt : String → DHValue

/-- Lines 953–961: `if isinstance(self.dH, str) or self.dH == 0` the
step defaults to `1` centimetre; then `dH = dH / 100` metres. -/
def effectiveStep : DHValue → ℚ
  | .txt _ => 1 / 100
  | .num v => if v = 0 then 1 / 100 else v / 100

/-! ### Helper lemmas -/

theorem foldl_min_le_init (t : List ℚ) : ∀ b : ℚ, t.foldl min b ≤ b := by
  induction t with
  | nil => intro b; exact le_rfl
  | cons a t ih =>
    intro b
    exact le_trans (ih (min b a)) (min_le_left b a)

theorem foldl_min_le_mem (t : List ℚ) :
    ∀ b a : ℚ, a ∈ t → t.foldl min b ≤ a := by
  induction t with
  | nil => intro b a ha; cases ha
  | cons c t ih =>
    intro b a ha
    rcases List.mem_cons.mp ha with rfl | ha
    · exact le_trans (foldl_min_le_init t (min b a)) (min_le_right b a)
    · exact ih (min b c) a ha

theorem minList_le_mem (l : List ℚ) : ∀ a ∈ l, minList l ≤ a := by
  cases l with
  | nil => intro a ha; cases ha
  | cons b t =>
    intro a ha
    rcases List.mem_cons.mp ha with rfl | ha
    · exact foldl_min_le_init t a
    · exact foldl_min_le_mem t b a ha

theorem minList_mem (l : List ℚ) (h : l ≠ []) : minList l ∈ l := by
  cases l with
  | nil => exact absurd rfl h
  | cons b t =>
    clear h
    show t.foldl min b ∈ b :: t
    induction t generalizing b with
    | nil => exact List.mem_singleton.mpr rfl
    | cons c t ih =>
      rcases List.mem_cons.mp (ih (min b c)) with hm | hm
      · rcases min_cases b c with ⟨he, _⟩ | ⟨he, _⟩
        · rw [List.foldl_cons, hm, he]; exact List.mem_cons_self _ _
        · rw [List.foldl_cons, hm, he]
          exact List.mem_cons_of_mem _ (List.mem_cons_self _ _)
      · rw [List.foldl_cons]
        exact List.mem_cons_of_mem _ (List.mem_cons_of_mem _ hm)

theorem minList_le_getD (l : List ℚ) (j : ℕ) (h : j < l.length) :
    minList l ≤ l.getD j 0 := by
  apply minList_le_mem
  rw [List.getD_eq_get l 0 h]
  exact List.get_mem l j h

theorem firstIdxOf_lt_length {a : ℚ} {l : List ℚ} (h : a ∈ l) :
    firstIdxOf a l < l.length := by
  induction l with
  | nil => cases h
  | cons b t ih =>
    by_cases hb : b = a
    · simp [firstIdxOf, hb]
    · rcases List.mem_cons.mp h with rfl | ht
      · exact absurd rfl hb
      · simpa [firstIdxOf, hb] using ih ht

theorem getD_firstIdxOf {a : ℚ} {l : List ℚ} (h : a ∈ l) :
    l.getD (firstIdxOf a l) 0 = a := by
  induction l with
  | nil => cases h
  | cons b t ih =>
    by_cases hb : b = a
    · simp [firstIdxOf, hb]
    · rcases List.mem_cons.mp h with rfl | ht
      · exact absurd rfl hb
      · simpa [firstIdxOf, hb] using ih ht

theorem getD_lt_firstIdxOf_ne {a : ℚ} {l : List ℚ} {j : ℕ}
    (hj : j < firstIdxOf a l) : l.getD j 0 ≠ a := by
  induction l generalizing j with
  | nil => simp [firstIdxOf] at hj
  | cons b t ih =>
    by_cases hb : b = a
    · simp [firstIdxOf, hb] at hj
    · cases j with
      | zero => simpa using hb
      | succ j =>
        simp only [firstIdxOf, hb, if_false] at hj
        exact ih (Nat.lt_of_succ_lt_succ hj)

theorem slice_self (l : List ℚ) (i : ℕ) : slice l i i = [] := by
  simp [slice]

theorem slice_succ_getD (l : List ℚ) (k : ℕ) (h : k < l.length) :
    slice l k (k + 1) = [l.getD k 0] := by
  unfold slice
  rw [Nat.add_sub_cancel_left, List.drop_eq_get_cons h, List.take_cons_succ,
    List.take_zero, List.getD_eq_get l 0 h]

theorem polyArea_two (a u v : ℚ) : polyArea [a, a] [u, v] = 0 := by
  have h : shoelaceSum [(a, u), (a, v), (a, u)] = 0 := by
    simp only [shoelaceSum, shoelaceAux]
    ring
  show |shoelaceSum [(a, u), (a, v), (a, u)]| / 2 = 0
  rw [h]
  simp

theorem polyArea_three (a u v w : ℚ) : polyArea [a, a, a] [u, v, w] = 0 := by
  have h : shoelaceSum [(a, u), (a, v), (a, w), (a, u)] = 0 := by
    simp only [shoelaceSum, shoelaceAux]
    ring
  show |shoelaceSum [(a, u), (a, v), (a, w), (a, u)]| / 2 = 0
  rw [h]
  simp

theorem leftB_at_min (xs ys : List ℚ) (hne : ys ≠ []) :
    leftB xs ys (minList ys) (firstIdxOf (minList ys) ys) =
      ([some (xs.getD (firstIdxOf (minList ys) ys) 0)],
        [firstIdxOf (minList ys) ys - 1]) := by
  have hmem := minList_mem ys hne
  have hget := getD_firstIdxOf hmem
  cases hk : firstIdxOf (minList ys) ys with
  | zero =>
    rw [hk] at hget
    unfold leftB
    rw [if_pos rfl, if_pos (le_of_eq hget)]
  | succ m =>
    have hklt := firstIdxOf_lt_length hmem
    rw [hk] at hget hklt
    have hmlt : m < ys.length := Nat.lt_of_succ_lt hklt
    have hge : ys.getD m 0 ≥ minList ys := minList_le_getD ys m hmlt
    have hne' : ys.getD m 0 ≠ minList ys :=
      getD_lt_firstIdxOf_ne (by rw [hk]; exact Nat.lt_succ_self m)
    unfold leftB
    rw [if_neg (Nat.succ_ne_zero m)]
    unfold leftScan
    rw [if_pos ⟨hge, le_of_eq hget⟩]
    show ([interpX (xs.getD m 0) (xs.getD (m + 1) 0)
            (ys.getD m 0) (ys.getD (m + 1) 0) (minList ys)], [m]) = _
    unfold interpX
    rw [hget, if_neg hne']
    have hsub : minList ys - ys.getD m 0 ≠ 0 :=
      sub_ne_zero.mpr (Ne.symm hne')
    rw [mul_div_assoc, div_self hsub, mul_one]
    simp

theorem rightB_at_min (xs ys : List ℚ) (hne : ys ≠ [])
    (hnext : firstIdxOf (minList ys) ys + 1 = ys.length ∨
      minList ys < ys.getD (firstIdxOf (minList ys) ys + 1) 0) :
    rightB xs ys (minList ys) (firstIdxOf (minList ys) ys) ys.length =
      ([some (xs.getD (firstIdxOf (minList ys) ys) 0)],
        [firstIdxOf (minList ys) ys]) := by
  have hmem := minList_mem ys hne
  have hget := getD_firstIdxOf hmem
  have hklt := firstIdxOf_lt_length hmem
  set k := firstIdxOf (minList ys) ys with hk
  rcases Nat.lt_or_ge (k + 1) ys.length with hlt | hge
  · -- the rightward loop runs and the crossing test fires at its first step
    have hy2 : minList ys < ys.getD (k + 1) 0 := by
      rcases hnext with h | h
      · omega
      · exact h
    obtain ⟨f, hf⟩ : ∃ f, ys.length - 1 - k = f + 1 := ⟨ys.length - 2 - k, by omega⟩
    unfold rightB
    rw [hf]
    rw [if_neg (fun hc => absurd hc.1 (by omega : k ≠ ys.length - 1))]
    unfold rightScan
    rw [if_pos ⟨le_of_eq hget, le_of_lt hy2⟩]
    show ([interpX (xs.getD k 0) (xs.getD (k + 1) 0)
            (ys.getD k 0) (ys.getD (k + 1) 0) (minList ys)], [k]) = _
    unfold interpX
    rw [hget, if_neg (ne_of_lt hy2)]
    rw [sub_self, mul_zero, zero_div, add_zero]
  · -- start is the last index: the loop is empty, the post-loop clamp fires
    have hkeq : k = ys.length - 1 := by omega
    have hfuel : ys.length - 1 - k = 0 := by omega
    unfold rightB
    rw [hfuel]
    rw [if_pos ⟨hkeq, le_of_eq hget⟩]
    show (([] : List (Option ℚ)) ++ [some (xs.getD (ys.length - 1) 0)],
      ([] : List ℕ) ++ [ys.length - 1]) = _
    rw [← hkeq]
    simp

theorem boundary_at_min (xs ys : List ℚ) (hne : ys ≠ [])
    (hnext : firstIdxOf (minList ys) ys + 1 = ys.length ∨
      minList ys < ys.getD (firstIdxOf (minList ys) ys + 1) 0) :
    boundary xs ys (minList ys) none =
      .ok [⟨[some (xs.getD (firstIdxOf (minList ys) ys) 0),
             some (xs.getD (firstIdxOf (minList ys) ys) 0)],
            [firstIdxOf (minList ys) ys - 1, firstIdxOf (minList ys) ys],
            0⟩] := by
  unfold boundary
  rw [if_neg (lt_irrefl (minList ys))]
  rw [leftB_at_min xs ys hne, rightB_at_min xs ys hne hnext]
  rfl

theorem calcParams_point (xs ys : List ℚ) (level : ℚ) (fl : Bool)
    (a : ℚ) (p1 p2 : ℕ)
    (hs : (slice xs (p1 + 1) (p2 + 1) = [] ∧ slice ys (p1 + 1) (p2 + 1) = []) ∨
      (slice xs (p1 + 1) (p2 + 1) = [a] ∧ slice ys (p1 + 1) (p2 + 1) = [level]))
    (hins1 : ¬ level > ys.getD p1 0) (hins2 : ¬ level > ys.getD 0 0) :
    ∃ g : WSGeom,
      calcParams xs ys level fl ⟨[some a, some a], [p1, p2], 0⟩ = .ok g ∧
      g.width = 0 ∧ g.area = 0 ∧ g.averageDepth = 1 / 100000 ∧
      g.maxDepth = 0 ∧ g.wetPerimeter = 0 ∧ g.wPerimSq = 0 := by
  have h2 : decide ((0 : ℚ) > 1 ∧ level > ys.getLastD 0) = false :=
    decide_eq_false fun hc => absurd hc.1 (by norm_num)
  have h1 : (if fl = true then decide (level > ys.getD p1 0)
      else decide (level > ys.getD 0 0)) = false := by
    cases fl
    · exact decide_eq_false hins2
    · exact decide_eq_false hins1
  rcases hs with ⟨hx, hy⟩ | ⟨hx, hy⟩
  · refine ⟨⟨[a, a], [level, level], 0, 0, 1 / 100000, 0, 0, 0⟩, ?_, rfl, rfl,
      rfl, rfl, rfl, rfl⟩
    simp only [calcParams, hx, hy, h1, h2, Bool.false_eq_true, if_false,
      List.nil_append]
    simp [polyArea_two, sumSqList, sumSqAux, maxList, sub_self]
  · refine ⟨⟨[a, a, a], [level, level, level], 0, 0, 1 / 100000, 0, 0, 0⟩,
      ?_, rfl, rfl, rfl, rfl, rfl, rfl⟩
    simp only [calcParams, hx, hy, h1, h2, Bool.false_eq_true, if_false,
      List.singleton_append]
    simp [polyArea_three, sumSqList, sumSqAux, maxList, sub_self]

theorem calcParams_ok_inv {xs ys : List ℚ} {level : ℚ} {fl : Bool}
    {bg : BGroup} {g : WSGeom} (h : calcParams xs ys level fl bg = .ok g) :
    g.wetPerimeter = 0 ∧ g.wPerimSq = sumSqList g.wsx := by
  unfold calcParams at h
  split at h
  · split at h
    · cases h
      exact ⟨rfl, rfl⟩
    · cases h
  · cases h

theorem boundary_ok_inv {xs ys : List ℚ} {level : ℚ}
    {st : Option (ℕ × ℚ)} {gs : List BGroup}
    (h : boundary xs ys level st = .ok gs) : gs.length = 1 := by
  unfold boundary at h
  split at h <;> split at h
  · cases h
  · cases h
    rfl
  · cases h
  · cases h
    rfl

theorem wsg_ok_inv {xs ys : List ℚ} {level : ℚ} {st : Option (ℕ × ℚ)}
    {fl : Bool} {g : WSGeom}
    (h : waterSectionGeom xs ys level st fl = .ok g) :
    ∃ bg : BGroup, boundary xs ys level st = .ok [bg] ∧
      calcParams xs ys level fl bg = .ok g := by
  unfold waterSectionGeom at h
  split at h
  · cases h
  next bg heq => exact ⟨bg, heq, h⟩
  · cases h

/-! ### Claims -/

/-- C1 (counterexample).  Two-sector profile in overflow mode: sector 0
(`x = [0,1,2,3]`, `y = [5,0,3,3]`, containing the global minimum `0`)
has right-half ridge elevation `3`; sector 1 (`x = [3,4,5,6]`,
`y = [3,1,4,4]`) starts inactive.  With step `dH = 1` the levels are
`1, 2, 3, …`; level `3` (iteration `t = 2`) is the first level at which
the ridge toward the inactive, in-bounds neighbour sector 1 is reached —
and sector 1 already contributes a row at that very level
(`rows = [0, 1]`), because `calc_sectors` is extended while the `for`
loop iterates over it.  This refutes the claim that the neighbour's
first row appears only at the next level step.  Both sectors' water
sections compute without error at level 3, so the rows are actually
produced. -/
theorem C1_counterexample :
    ridgePair [5, 0, 3, 3] = (5, 3) ∧ ridgePair [3, 1, 4, 4] = (3, 4) ∧
    rowsAtLevel [(5, 3), (3, 4)] 2 0 0 1 0 = [0] ∧
    rowsAtLevel [(5, 3), (3, 4)] 2 0 0 1 1 = [0] ∧
    ¬ ((3 : ℚ) ≤ 0 + 1 * ((1 : ℕ) + 1 : ℕ)) ∧
    ((3 : ℚ) ≤ 0 + 1 * ((2 : ℕ) + 1 : ℕ)) ∧
    1 ∉ activeBefore [(5, 3), (3, 4)] 2 0 0 1 2 ∧
    rowsAtLevel [(5, 3), (3, 4)] 2 0 0 1 2 = [0, 1] ∧
    isOk (waterSectionGeom [0, 1, 2, 3] [5, 0, 3, 3] 3 none true) = true ∧
    isOk (waterSectionGeom [3, 4, 5, 6] [3, 1, 4, 4] 3 (some (0, 3)) true)
      = true := by
  norm_num [rowsAtLevel, activeBefore, overflowPass, ridgePair, chunkFirst,
    chunkSecond, maxList, isOk, waterSectionGeom, boundary, leftB, leftScan,
    rightB, rightScan, interpX, calcParams, slice, polyArea, shoelaceSum,
    shoelaceAux, minList, firstIdxOf, sumSqList, sumSqAux, insertAt1,
    insertPenult]

/-- C1 (amended).  On the same two-sector overflow scenario: the
neighbour sector contributes no row while the level is below the shared
ridge, and its first row appears at the very level step at which the
ridge is first reached (it is appended to the active list during that
same pass), remaining active afterwards. -/
theorem C1_amended :
    1 ∉ rowsAtLevel [(5, 3), (3, 4)] 2 0 0 1 0 ∧
    1 ∉ rowsAtLevel [(5, 3), (3, 4)] 2 0 0 1 1 ∧
    1 ∈ rowsAtLevel [(5, 3), (3, 4)] 2 0 0 1 2 ∧
    activeBefore [(5, 3), (3, 4)] 2 0 0 1 3 = [0, 1] ∧
    1 ∈ rowsAtLevel [(5, 3), (3, 4)] 2 0 0 1 3 := by
  norm_num [rowsAtLevel, activeBefore, overflowPass]

/-- C2 (counterexample).  V-shaped profile `x = [0,3,7]`, `y = [2,0,2]`,
level 2: the wetted polyline is `[0,3,7]` with successive horizontal
differences 3 and 4.  The claim's "sum of successive Δx" is 7, but the
code computes `w_perimeter = √(3² + 4²) = 5 ≠ 7`, and the hydraulic
radius is `area / 5 = 7/5`, not `area / 7 = 1`. -/
theorem C2_counterexample :
    waterSectionGeom [0, 3, 7] [2, 0, 2] 2 none false =
      .ok ⟨[0, 3, 7], [2, 0, 2], 7, 7, 1, 2, 0, 25⟩ ∧
    claimHorizontalSpan [0, 3, 7] = 7 ∧
    wPerimeterR ⟨[0, 3, 7], [2, 0, 2], 7, 7, 1, 2, 0, 25⟩ = 5 ∧
    ((5 : ℝ) ≠ 7) ∧
    rHydraulicR ⟨[0, 3, 7], [2, 0, 2], 7, 7, 1, 2, 0, 25⟩ = 7 / 5 ∧
    ((7 / 5 : ℝ) ≠ 7 / 7) := by
  have hsq : ((25 : ℚ) : ℝ) = (5 : ℝ) ^ 2 := by norm_num
  refine ⟨?_, ?_, ?_, by norm_num, ?_, by norm_num⟩
  · norm_num [waterSectionGeom, boundary, leftB, leftScan, rightB, rightScan,
      interpX, calcParams, slice, polyArea, shoelaceSum, shoelaceAux, minList,
      firstIdxOf, maxList, sumSqList, sumSqAux, insertAt1, insertPenult]
  · norm_num [claimHorizontalSpan, claimSpanAux]
  · show Real.sqrt ((25 : ℚ) : ℝ) = 5
    rw [hsq, Real.sqrt_sq (by norm_num : (0 : ℝ) ≤ 5)]
  · show (if (0 : ℚ) < 7 ∧ (0 : ℚ) < 25 then
        ((7 : ℚ) : ℝ) / Real.sqrt ((25 : ℚ) : ℝ) else 1 / 100000) = 7 / 5
    rw [if_pos (by norm_num : (0 : ℚ) < 7 ∧ (0 : ℚ) < 25), hsq,
      Real.sqrt_sq (by norm_num : (0 : ℝ) ≤ 5)]
    norm_num

/-- C2 (amended).  For every successfully constructed water section, the
computed wetted perimeter is `√(Σ Δx²)` over the wetted sub-polyline
(the square root of the sum of *squared* successive horizontal
differences, not their plain sum), and the hydraulic radius is
`area / √(Σ Δx²)` whenever the area and that sum are positive. -/
theorem C2_amended (xs ys : List ℚ) (level : ℚ) (st : Option (ℕ × ℚ))
    (fl : Bool) (g : WSGeom)
    (h : waterSectionGeom xs ys level st fl = .ok g) :
    g.wPerimSq = sumSqList g.wsx ∧
    wPerimeterR g = Real.sqrt ((sumSqList g.wsx : ℚ) : ℝ) ∧
    (0 < g.area → 0 < g.wPerimSq →
      rHydraulicR g =
        (g.area : ℝ) / Real.sqrt ((sumSqList g.wsx : ℚ) : ℝ)) := by
  obtain ⟨bg, _, hc⟩ := wsg_ok_inv h
  obtain ⟨_, hsq⟩ := calcParams_ok_inv hc
  refine ⟨hsq, by rw [wPerimeterR, hsq], fun ha hp => ?_⟩
  rw [rHydraulicR, if_pos ⟨ha, hp⟩, wPerimeterR, hsq]

/-- C2 (witness for the amended theorem), instantiated on the
trapezoidal §8 profile at level 9, whose wetted polyline is
`[5/2, 5, 10, 25/2]`. -/
theorem C2_witness :
    (⟨[5/2, 5, 10, 25/2], [9, 8, 8, 9], 10, 15/2, 3/4, 1, 0, 75/2⟩ :
        WSGeom).wPerimSq = sumSqList [5/2, 5, 10, 25/2] ∧
    rHydraulicR
        ⟨[5/2, 5, 10, 25/2], [9, 8, 8, 9], 10, 15/2, 3/4, 1, 0, 75/2⟩ =
      ((15/2 : ℚ) : ℝ) /
        Real.sqrt ((sumSqList [5/2, 5, 10, 25/2] : ℚ) : ℝ) := by
  have h := C2_amended [0, 5, 10, 15] [10, 8, 8, 10] 9 none false
    ⟨[5/2, 5, 10, 25/2], [9, 8, 8, 9], 10, 15/2, 3/4, 1, 0, 75/2⟩
    (by norm_num [waterSectionGeom, boundary, leftB, leftScan, rightB,
      rightScan, interpX, calcParams, slice, polyArea, shoelaceSum,
      shoelaceAux, minList, firstIdxOf, maxList, sumSqList, sumSqAux,
      insertAt1, insertPenult])
  exact ⟨h.1, h.2.2 (by norm_num) (by norm_num)⟩

/-- C3.  For every list of sector rows at one level, the aggregate row
written by the `groupby` fill satisfies: `F`, `B`, `Q` equal the sums of
the sector rows (exactly, hence within the claimed `1e-6`),
`Hср = ΣF/ΣB`, `V = ΣQ/ΣF`, and `Shezi` is the mean of the sector rows'
Shezi values (the zero placeholder in the group cancels in the sums, and
the `count − 1` denominator equals the number of sector rows, excluding
the aggregate row itself). -/
theorem C3_aggregate (sectors : List RRow) :
    (aggRow sectors).F = (sectors.map RRow.F).sum ∧
    (aggRow sectors).B = (sectors.map RRow.B).sum ∧
    (aggRow sectors).Q = (sectors.map RRow.Q).sum ∧
    |(aggRow sectors).F - (sectors.map RRow.F).sum| ≤ 1 / 1000000 ∧
    |(aggRow sectors).B - (sectors.map RRow.B).sum| ≤ 1 / 1000000 ∧
    |(aggRow sectors).Q - (sectors.map RRow.Q).sum| ≤ 1 / 1000000 ∧
    (aggRow sectors).Hsr =
      (sectors.map RRow.F).sum / (sectors.map RRow.B).sum ∧
    (aggRow sectors).V =
      (sectors.map RRow.Q).sum / (sectors.map RRow.F).sum ∧
    (aggRow sectors).Sh =
      (sectors.map RRow.Sh).sum / (sectors.length : ℝ) := by
  refine ⟨?_, ?_, ?_, ?_, ?_, ?_, ?_, ?_, ?_⟩
  all_goals simp [aggRow, fillAgg, zeroRow]

/-- C4 (counterexample).  Trapezoidal channel `(0,10), (5,8), (10,8),
(15,10)` at `water_level = 9`: the boundary abscissae are indeed
`5/2` and `25/2` and the width is 10, but the shoelace area of
`[(5/2,9), (5,8), (10,8), (25/2,9)]` is `15/2 = 7.5`, not the claimed
`35/2 = 17.5`, and the average depth is `3/4 = 0.75`, not `7/4`. -/
theorem C4_counterexample :
    boundary [0, 5, 10, 15] [10, 8, 8, 10] 9 none =
      .ok [⟨[some (5/2), some (25/2)], [0, 2], 0⟩] ∧
    waterSectionGeom [0, 5, 10, 15] [10, 8, 8, 10] 9 none false =
      .ok ⟨[5/2, 5, 10, 25/2], [9, 8, 8, 9], 10, 15/2, 3/4, 1, 0, 75/2⟩ ∧
    polyArea [5/2, 5, 10, 25/2] [9, 8, 8, 9] = 15/2 ∧
    ((15/2 : ℚ) ≠ 35/2) := by
  norm_num [waterSectionGeom, boundary, leftB, leftScan, rightB, rightScan,
    interpX, calcParams, slice, polyArea, shoelaceSum, shoelaceAux, minList,
    firstIdxOf, maxList, sumSqList, sumSqAux, insertAt1, insertPenult]

/-- C4 (amended).  Same scenario, with the values the code actually
produces (for either overflow flag): boundary abscissae `5/2` and
`25/2`, `width = 10`, shoelace `area = 15/2`, `average_depth = 3/4`. -/
theorem C4_amended : ∀ fl : Bool,
    waterSectionGeom [0, 5, 10, 15] [10, 8, 8, 10] 9 none fl =
      .ok ⟨[5/2, 5, 10, 25/2], [9, 8, 8, 9], 10, 15/2, 3/4, 1, 0, 75/2⟩ := by
  intro fl
  cases fl <;>
    norm_num [waterSectionGeom, boundary, leftB, leftScan, rightB, rightScan,
      interpX, calcParams, slice, polyArea, shoelaceSum, shoelaceAux, minList,
      firstIdxOf, maxList, sumSqList, sumSqAux, insertAt1, insertPenult]

/-- C5.  For every nonempty profile and every requested level strictly
below `min(y)`, the water-section computation fails with the
invalid-level error (the `sys.exit(1)` branch) and produces no metrics,
for any start point and either overflow flag. -/
theorem C5_below_min (xs ys : List ℚ) (level : ℚ) (st : Option (ℕ × ℚ))
    (fl : Bool) (hne : ys ≠ []) (h : level < minList ys) :
    waterSectionGeom xs ys level st fl = .error .belowMin := by
  simp only [waterSectionGeom, boundary, if_pos h]

/-- C5 (witness): the V-profile `y = [2,0,2]` at level `-1 < 0`. -/
theorem C5_witness :
    ([2, 0, 2] : List ℚ) ≠ [] ∧ (-1 : ℚ) < minList [2, 0, 2] ∧
    waterSectionGeom [0, 1, 2] [2, 0, 2] (-1) none false =
      .error .belowMin := by
  have hlt : (-1 : ℚ) < minList [2, 0, 2] := by
    norm_num [minList]
  exact ⟨by simp, hlt,
    C5_below_min [0, 1, 2] [2, 0, 2] (-1) none false (by simp) hlt⟩

/-- C6 (counterexample).  On a profile whose minimum is an interior
plateau (`y = [2,1,1,2]`), requesting the level exactly `min(y) = 1`
makes the rightward search interpolate on a segment with equal
ordinates: the original divides by zero and produces NaN (the
`nanInterp` outcome here), so the computation does *not* yield
`width = 0` and `area = 0`. -/
theorem C6_counterexample :
    minList [2, 1, 1, 2] = 1 ∧
    waterSectionGeom [0, 1, 2, 3] [2, 1, 1, 2] 1 none false =
      .error .nanInterp := by
  norm_num [waterSectionGeom, boundary, leftB, leftScan, rightB, rightScan,
    interpX, calcParams, slice, polyArea, shoelaceSum, shoelaceAux, minList,
    firstIdxOf, maxList, sumSqList, sumSqAux, insertAt1, insertPenult]

/-- C6 (amended).  For every profile (equal-length coordinate lists)
whose vertex after the first minimum index is strictly above the
minimum (or the minimum is the last vertex), requesting
`water_level = min(y)` with the default start point succeeds: no error
branch is reached, `width = 0`, `area = 0`, and `average_depth` and
`r_hydraulic` take the `0.00001` epsilon floor. -/
theorem C6_zero_at_min (xs ys : List ℚ) (fl : Bool) (hne : ys ≠ [])
    (hlen : xs.length = ys.length)
    (hnext : firstIdxOf (minList ys) ys + 1 = ys.length ∨
      minList ys < ys.getD (firstIdxOf (minList ys) ys + 1) 0) :
    ∃ g : WSGeom,
      waterSectionGeom xs ys (minList ys) none fl = .ok g ∧
      g.width = 0 ∧ g.area = 0 ∧ g.averageDepth = 1 / 100000 ∧
      rHydraulicR g = 1 / 100000 := by
  have hb := boundary_at_min xs ys hne hnext
  have hmem : minList ys ∈ ys := minList_mem ys hne
  have hklt : firstIdxOf (minList ys) ys < ys.length :=
    firstIdxOf_lt_length hmem
  have hkget : ys.getD (firstIdxOf (minList ys) ys) 0 = minList ys :=
    getD_firstIdxOf hmem
  set m0 := minList ys with hm0
  set k := firstIdxOf m0 ys with hkdef
  have hs : (slice xs (k - 1 + 1) (k + 1) = [] ∧
        slice ys (k - 1 + 1) (k + 1) = []) ∨
      (slice xs (k - 1 + 1) (k + 1) = [xs.getD k 0] ∧
        slice ys (k - 1 + 1) (k + 1) = [m0]) := by
    cases hk : k with
    | zero =>
      left
      exact ⟨slice_self xs 1, slice_self ys 1⟩
    | succ m =>
      right
      rw [← hk]
      have hx : slice xs k (k + 1) = [xs.getD k 0] :=
        slice_succ_getD xs k (hlen ▸ hklt)
      have hy : slice ys k (k + 1) = [ys.getD k 0] :=
        slice_succ_getD ys k hklt
      rw [show k - 1 + 1 = k by omega]
      exact ⟨hx, by rw [hy, hkget]⟩
  have hins1 : ¬ m0 > ys.getD (k - 1) 0 := by
    cases hk : k with
    | zero =>
      rw [← hk]
      rw [show k - 1 = k by omega, hkget]
      exact lt_irrefl m0
    | succ m =>
      rw [← hk]
      have hmlt : k - 1 < ys.length := by omega
      exact not_lt.mpr (minList_le_getD ys (k - 1) hmlt)
  have hins2 : ¬ m0 > ys.getD 0 0 := by
    have h0 : 0 < ys.length := by
      cases ys with
      | nil => exact absurd rfl hne
      | cons a t => simp
    exact not_lt.mpr (minList_le_getD ys 0 h0)
  obtain ⟨g, hcp, hw, ha, hd, _, _, hsq⟩ :=
    calcParams_point xs ys m0 fl (xs.getD k 0) (k - 1) k hs hins1 hins2
  refine ⟨g, ?_, hw, ha, hd, ?_⟩
  · unfold waterSectionGeom
    rw [hb]
    exact hcp
  · rw [rHydraulicR, if_neg fun hc => absurd (ha ▸ hc.1) (lt_irrefl 0)]

/-- C6 (witness): the single-minimum trapezoid `y = [10,8,9,10]` at
level `min(y) = 8`. -/
theorem C6_witness :
    ∃ g : WSGeom,
      waterSectionGeom [0, 5, 10, 15] [10, 8, 9, 10]
          (minList [10, 8, 9, 10]) none false = .ok g ∧
      g.width = 0 ∧ g.area = 0 ∧ g.averageDepth = 1 / 100000 ∧
      rHydraulicR g = 1 / 100000 :=
  C6_zero_at_min [0, 5, 10, 15] [10, 8, 9, 10] false (by simp) (by simp)
    (by norm_num [minList, firstIdxOf])

/-- C7 (counterexample).  The configured step `dH = -5` is non-positive,
yet the builder does not fall back to the 1 cm default: the effective
step is `-5/100 = -1/20 ≠ 1/100` metres (only a string or an exact zero
triggers the default). -/
theorem C7_counterexample :
    ((-5 : ℚ) < 0) ∧ effectiveStep (DHValue.num (-5)) = -(1/20) ∧
    ((-(1/20) : ℚ) ≠ 1/100) := by
  norm_num [effectiveStep]

/-- C7 (amended).  The builder defaults to the 1 cm step exactly when
`dH` is a string or equals zero; every other numeric value `q` —
negative values included — yields `q/100` metres. -/
theorem C7_amended :
    (∀ s : String, effectiveStep (DHValue.txt s) = 1/100) ∧
    effectiveStep (DHValue.num 0) = 1/100 ∧
    (∀ q : ℚ, q ≠ 0 → effectiveStep (DHValue.num q) = q / 100) := by
  refine ⟨fun s => rfl, by norm_num [effectiveStep], fun q hq => ?_⟩
  simp [effectiveStep, hq]

/-- C7 (witness for the amended theorem). -/
theorem C7_witness :
    effectiveStep (DHValue.txt ("x")) = 1/100 ∧
    effectiveStep (DHValue.num (-5)) = (-5) / 100 :=
  ⟨C7_amended.1 ("x"), C7_amended.2.2 (-5) (by norm_num)⟩

/-- C8.  For the "water" regime (`CALC_TYPE = 1`), roughness `n > 0`
and `0 ≤ h ≤ 3`: the Chezy coefficient is the Pavlovsky
`C = (1/n)·h^y` with `y = 2.5·√n − 0.13 − 0.75·√h·(√n − 0.10)`, the
velocity is `v = C·√(h·(i/1000))`, and `q = a·v`; moreover `q = a·v`
holds in every recognized regime (1, 2 or 3). -/
theorem C8_water_regime (n i h a : ℝ) (hn : 0 < n) (h0 : 0 ≤ h)
    (h3 : h ≤ 3) :
    calculation n i h a 1 =
      .ok ⟨1 / n * h ^ pavlovskijY n h,
           1 / n * h ^ pavlovskijY n h * Real.sqrt (h * (i / 1000)),
           a * (1 / n * h ^ pavlovskijY n h * Real.sqrt (h * (i / 1000)))⟩ ∧
    (∀ t : ℤ, t = 1 ∨ t = 2 ∨ t = 3 →
      ∃ c : CalcOut, calculation n i h a t = .ok c ∧ c.q = a * c.v) := by
  have hs : sheziCoef n h = 1 / n * h ^ pavlovskijY n h := by
    rw [sheziCoef, if_pos ⟨h0, h3⟩]
  constructor
  · simp only [calculation, hs]
    norm_num
  · rintro t (rfl | rfl | rfl)
    · exact ⟨⟨sheziCoef n h, sheziCoef n h * Real.sqrt (h * (i / 1000)),
        a * (sheziCoef n h * Real.sqrt (h * (i / 1000)))⟩,
        by norm_num [calculation], rfl⟩
    · exact ⟨⟨sheziCoef n h, 4.5 * h ^ (0.67 : ℝ) * (i / 1000) ^ (0.17 : ℝ),
        a * (4.5 * h ^ (0.67 : ℝ) * (i / 1000) ^ (0.17 : ℝ))⟩,
        by norm_num [calculation], rfl⟩
    · exact ⟨⟨sheziCoef n h, 3.75 * h ^ (0.50 : ℝ) * (i / 1000) ^ (0.17 : ℝ),
        a * (3.75 * h ^ (0.50 : ℝ) * (i / 1000) ^ (0.17 : ℝ))⟩,
        by norm_num [calculation], rfl⟩

/-- C8 (witness), at `n = 1`, `i = 2`, `h = 1`, `a = 3`. -/
theorem C8_witness :
    calculation 1 2 1 3 1 =
      .ok ⟨1 / 1 * (1 : ℝ) ^ pavlovskijY 1 1,
           1 / 1 * (1 : ℝ) ^ pavlovskijY 1 1 * Real.sqrt (1 * (2 / 1000)),
           3 * (1 / 1 * (1 : ℝ) ^ pavlovskijY 1 1 *
             Real.sqrt (1 * (2 / 1000)))⟩ ∧
    (∀ t : ℤ, t = 1 ∨ t = 2 ∨ t = 3 →
      ∃ c : CalcOut, calculation 1 2 1 3 t = .ok c ∧ c.q = 3 * c.v) :=
  C8_water_regime 1 2 1 3 (by norm_num) (by norm_num) (by norm_num)

/-- C9 (counterexample).  Island profile `x = [0,1,2,3,4]`,
`y = [3,0,3,1,3]` at level 2 has two disjoint wetted bodies (around
`x = 1` and around `x = 3`), yet `boundary` returns a single pair
bracketing only the first body, and the section's area is that body's
`4/3` alone — not the claimed sum `4/3 + 1/2` of the two bodies'
shoelace areas (`polyArea [5/2,3,7/2] [2,1,2] = 1/2` being the second
body's area). -/
theorem C9_counterexample :
    boundary [0, 1, 2, 3, 4] [3, 0, 3, 1, 3] 2 none =
      .ok [⟨[some (1/3), some (5/3)], [0, 1], 0⟩] ∧
    waterSectionGeom [0, 1, 2, 3, 4] [3, 0, 3, 1, 3] 2 none false =
      .ok ⟨[1/3, 1, 5/3], [2, 0, 2], 4/3, 4/3, 1, 2, 0, 8/9⟩ ∧
    polyArea [5/2, 3, 7/2] [2, 1, 2] = 1/2 ∧
    ((4/3 : ℚ) ≠ 4/3 + 1/2) := by
  norm_num [waterSectionGeom, boundary, leftB, leftScan, rightB, rightScan,
    interpX, calcParams, slice, polyArea, shoelaceSum, shoelaceAux, minList,
    firstIdxOf, maxList, sumSqList, sumSqAux, insertAt1, insertPenult,
    abs_div]

/-- C9 (amended).  `boundary` returns exactly one boundary pair (the one
found nearest the start point), and every successfully constructed
water section's metrics are those computed from that single pair alone;
no summation over further disjoint bodies takes place. -/
theorem C9_amended (xs ys : List ℚ) (level : ℚ) (st : Option (ℕ × ℚ))
    (fl : Bool) (w : WSGeom)
    (h : waterSectionGeom xs ys level st fl = .ok w) :
    ∃ bg : BGroup, boundary xs ys level st = .ok [bg] ∧
      calcParams xs ys level fl bg = .ok w :=
  wsg_ok_inv h

/-- C9 (witness), on the V-profile `x = [0,3,7]`, `y = [2,0,2]` at
level 2. -/
theorem C9_witness :
    ∃ bg : BGroup, boundary [0, 3, 7] [2, 0, 2] 2 none = .ok [bg] ∧
      calcParams [0, 3, 7] [2, 0, 2] 2 false bg =
        .ok ⟨[0, 3, 7], [2, 0, 2], 7, 7, 1, 2, 0, 25⟩ :=
  C9_amended [0, 3, 7] [2, 0, 2] 2 none false
    ⟨[0, 3, 7], [2, 0, 2], 7, 7, 1, 2, 0, 25⟩
    (by norm_num [waterSectionGeom, boundary, leftB, leftScan, rightB,
      rightScan, interpX, calcParams, slice, polyArea, shoelaceSum,
      shoelaceAux, minList, firstIdxOf, maxList, sumSqList, sumSqAux,
      insertAt1, insertPenult])

/-- C10.  `boundary` returns exactly one group for every input on which
it succeeds; after every successful construction the dataclass field
`wet_perimeter` still holds its default `0.0` (the computed perimeter
lives in the separate `w_perimeter = √(sum_sqr)` attribute, carried here
as `wPerimSq`), and `r_hydraulic` is derived from that separate
attribute: `area / √(wPerimSq)` when both are positive, else the
`0.00001` floor. -/
theorem C10_single_group :
    (∀ (xs ys : List ℚ) (level : ℚ) (st : Option (ℕ × ℚ))
        (gs : List BGroup),
      boundary xs ys level st = .ok gs → gs.length = 1) ∧
    (∀ (xs ys : List ℚ) (level : ℚ) (st : Option (ℕ × ℚ)) (fl : Bool)
        (g : WSGeom),
      waterSectionGeom xs ys level st fl = .ok g →
      g.wetPerimeter = 0 ∧
      rHydraulicR g =
        if 0 < g.area ∧ 0 < g.wPerimSq then
          (g.area : ℝ) / Real.sqrt ((g.wPerimSq : ℚ) : ℝ)
        else 1 / 100000) := by
  refine ⟨fun xs ys level st gs h => boundary_ok_inv h,
    fun xs ys level st fl g h => ?_⟩
  obtain ⟨bg, _, hc⟩ := wsg_ok_inv h
  exact ⟨(calcParams_ok_inv hc).1, rfl⟩

/-- C10 (witness), on the island profile at level 2. -/
theorem C10_witness :
    ([(⟨[some (1/3), some (5/3)], [0, 1], 0⟩ : BGroup)]).length = 1 ∧
    ((⟨[1/3, 1, 5/3], [2, 0, 2], 4/3, 4/3, 1, 2, 0, 8/9⟩ :
        WSGeom).wetPerimeter = 0 ∧
      rHydraulicR ⟨[1/3, 1, 5/3], [2, 0, 2], 4/3, 4/3, 1, 2, 0, 8/9⟩ =
        if 0 < (4/3 : ℚ) ∧ 0 < (8/9 : ℚ) then
          ((4/3 : ℚ) : ℝ) / Real.sqrt (((8/9 : ℚ) : ℚ) : ℝ)
        else 1 / 100000) :=
  ⟨C10_single_group.1 [0, 1, 2, 3, 4] [3, 0, 3, 1, 3] 2 none _
    (by norm_num [boundary, leftB, leftScan, rightB, rightScan, interpX,
      slice, minList, firstIdxOf]),
   C10_single_group.2 [0, 1, 2, 3, 4] [3, 0, 3, 1, 3] 2 none false _
    (by norm_num [waterSectionGeom, boundary, leftB, leftScan, rightB,
      rightScan, interpX, calcParams, slice, polyArea, shoelaceSum,
      shoelaceAux, minList, firstIdxOf, maxList, sumSqList, sumSqAux,
      insertAt1, insertPenult, abs_div])⟩

end Gidraulic
